import Mathlib

/-!
Verification of the Tutor-tech RAG core against its design description.

The storage layer (backend/database/schema.sql and schema_pgvector.sql) is
embedded directly from the SQL source.  The similarity metric of pgvector
(the cosine-distance operator) is kept abstract as a parameter `dist`,
since every property below holds for an arbitrary fixed distance function.
Rational numbers stand in for the floating-point similarity scores so that
all comparisons are exact and decidable.

Several components of the pipeline (the Retriever, the Answer Synthesizer
and the page-aware Chunker, all in the Python backend services) are not
present in the source tree; those are modelled from the design document, as
noted on each definition.
-/

namespace TutorTech

/-- A row of the document_chunks table (schema.sql lines 33-41, with the
embedding column added by schema_pgvector.sql lines 7-9).  The page fields
live inside the metadata JSONB of the real table (PHASE1_COMPLETE.md). -/
structure ChunkRow where
  id : Nat
  document_id : Nat
  knowledge_base_id : Nat
  chunk_index : Nat
  content : String
  page_start : Nat
  page_end : Nat
  embedding : Option (List ℚ)
deriving Repr, DecidableEq

/-- A row of the result table of find_similar_chunks
(schema_pgvector.sql lines 28-36). -/
structure SimilarRow where
  id : Nat
  document_id : Nat
  chunk_index : Nat
  content : String
  page_start : Nat
  page_end : Nat
  similarity : ℚ
deriving Repr, DecidableEq

/-- Abstract distance function standing for the pgvector cosine-distance
operator applied to a stored embedding and the query embedding. -/
def Dist : Type := List ℚ → List ℚ → ℚ

/-- The rows of the WHERE clause of find_similar_chunks
(schema_pgvector.sql lines 46-49): chunks of the requested knowledge base
whose embedding is non-null and whose similarity 1 - dist exceeds the
threshold, paired with that embedding. -/
def eligible (dist : Dist) (db : List ChunkRow) (query_embedding : List ℚ)
    (kb_id_param : Nat) (match_threshold : ℚ) : List (ChunkRow × List ℚ) :=
  db.filterMap fun r =>
    match r.embedding with
    | none => none
    | some e =>
        if r.knowledge_base_id = kb_id_param ∧ match_threshold < 1 - dist e query_embedding
        then some (r, e) else none

/-- The SELECT list of find_similar_chunks (schema_pgvector.sql lines
40-46): id, document_id, chunk_index, content, metadata and the similarity
1 - (embedding <=> query_embedding). -/
def toSimilar (dist : Dist) (query_embedding : List ℚ) (p : ChunkRow × List ℚ) : SimilarRow :=
  ⟨p.1.id, p.1.document_id, p.1.chunk_index, p.1.content, p.1.page_start, p.1.page_end,
    1 - dist p.2 query_embedding⟩

/-- Embedding of the SQL function find_similar_chunks
(schema_pgvector.sql lines 22-55): filter by knowledge base, non-null
embedding and similarity strictly above the threshold, ORDER BY the
cosine distance ascending, LIMIT match_count, and report the similarity
1 - distance for each row. -/
def find_similar_chunks (dist : Dist) (db : List ChunkRow) (query_embedding : List ℚ)
    (kb_id_param : Nat) (match_threshold : ℚ) (match_count : Nat) : List SimilarRow :=
  ((List.insertionSort
      (fun a b : ChunkRow × List ℚ => dist a.2 query_embedding ≤ dist b.2 query_embedding)
      (eligible dist db query_embedding kb_id_param match_threshold)).map
    (toSimilar dist query_embedding)).take match_count

/-- Sample distance function used to evaluate the development on concrete
inputs: squared euclidean distance. -/
def dist0 : Dist := fun a b => ((a.zip b).map fun p => (p.1 - p.2) * (p.1 - p.2)).sum

/-- Sample chunk rows. -/
def c1r : ChunkRow := ⟨1, 10, 7, 0, "alpha", 1, 1, some [1, 0]⟩

def c2r : ChunkRow := ⟨2, 10, 7, 1, "beta", 1, 2, some [0, 1]⟩

def c3r : ChunkRow := ⟨3, 11, 7, 0, "gamma", 1, 1, none⟩

def c4r : ChunkRow := ⟨4, 12, 8, 0, "delta", 1, 1, some [1, 1]⟩

/-- Sample chunk table. -/
def db0 : List ChunkRow := [c1r, c2r, c3r, c4r]

/-- Modelled from the spec: the application-code fallback similarity search of
the Retriever (backend/services/rag.py is not in the source tree; the Phase 2
debugging guide records the implemented solution as a Python-based similarity
calculation used when the RPC fails).  It computes the similarity 1 - dist
for every chunk of the knowledge base whose embedding is present, keeps those
strictly above the threshold, sorts by similarity descending, and truncates
to the limit. -/
def fallback_search (dist : Dist) (db : List ChunkRow) (q : List ℚ)
    (kb : Nat) (th : ℚ) (cnt : Nat) : List SimilarRow :=
  (List.insertionSort (fun a b : SimilarRow => b.similarity ≤ a.similarity)
    (db.filterMap fun r =>
      match r.embedding with
      | none => none
      | some e =>
          if r.knowledge_base_id = kb ∧ th < 1 - dist e q
          then some (toSimilar dist q (r, e)) else none)).take cnt

/-- Modelled from the spec: the Retriever calls the native RPC search first
and, when that path raises or is unavailable (native = none), transparently
invokes the fallback with the same parameters. -/
def search_with_fallback (dist : Dist) (db : List ChunkRow) (q : List ℚ)
    (kb : Nat) (th : ℚ) (cnt : Nat) (native : Option (List SimilarRow)) :
    List SimilarRow :=
  match native with
  | some rows => rows
  | none => fallback_search dist db q kb th cnt

/-- Modelled from the spec: the zero-result policy of the Retriever
(backend/services/rag.py is not in the source tree; the Phase 2 debugging
guide records the implemented solution as a threshold adjustment when no
results are found).  If no chunk clears the requested threshold the search is
retried exactly once with the threshold halved; an empty relaxed result is
returned as an ordinary empty list. -/
def retrieve (dist : Dist) (db : List ChunkRow) (q : List ℚ)
    (kb : Nat) (th : ℚ) (cnt : Nat) : List SimilarRow :=
  let first := find_similar_chunks dist db q kb th cnt
  if first = [] then find_similar_chunks dist db q kb (th / 2) cnt else first

/-- Sample query embedding. -/
def q0 : List ℚ := [1, 0]

/-- A citation produced at query time (Phase 3 guide: 1-based id, document
reference, page range, snippet and similarity score). -/
structure Citation where
  id : Nat
  document_id : Nat
  page_start : Nat
  page_end : Nat
  snippet : String
  similarity : ℚ
deriving Repr, DecidableEq

/-- Result of the ask endpoint: answer text, citation list and the number of
chunks retrieved (response shape of the Phase 3 guide). -/
structure AskResult where
  answer : String
  citations : List Citation
  chunks_retrieved : Nat
deriving Repr, DecidableEq

/-- Numeric value of a digit string. -/
def digitsVal (ds : List Char) : Nat :=
  ds.foldl (fun n c => 10 * n + (c.toNat - 48)) 0

/-- Modelled from the spec: the scan of the answer text for bracketed integer
markers such as [1] or [2] (citation extraction of backend/services/rag.py,
which is not in the source tree).  The second argument holds the digits read
since the last unmatched opening bracket, innermost first. -/
def scanMarkers : List Char → Option (List Char) → List Nat
  | [], _ => []
  | c :: rest, none =>
      if c = '[' then scanMarkers rest (some []) else scanMarkers rest none
  | c :: rest, some buf =>
      if c = ']' then
        if buf = [] then scanMarkers rest none
        else digitsVal buf.reverse :: scanMarkers rest none
      else if c.isDigit then scanMarkers rest (some (c :: buf))
      else if c = '[' then scanMarkers rest (some [])
      else scanMarkers rest none

/-- All bracketed integer markers of an answer string, in order. -/
def markersOf (s : String) : List Nat := scanMarkers s.toList none

/-- Modelled from the spec: citation extraction of the Answer Synthesizer.
One citation per distinct marker present in the answer; a marker whose
number k lies outside 1..n, where n is the number of retrieved chunks, is
dropped without error; marker k cites the k-th retrieved chunk by the same
1-based numbering used in the prompt. -/
def extractCitations (answer : String) (ranked : List SimilarRow) : List Citation :=
  (markersOf answer).dedup.filterMap fun k =>
    if 1 ≤ k then
      match ranked[k - 1]? with
      | some ch =>
          some ⟨k, ch.document_id, ch.page_start, ch.page_end, ch.content, ch.similarity⟩
      | none => none
    else none

/-- Modelled from the spec: the fixed grounded-refusal answer returned when
no chunks were retrieved. -/
def insufficient_answer : String :=
  "There is insufficient information in the knowledge base to answer this question."

/-- Modelled from the spec: the prompt presents each retrieved chunk as a
numbered source annotated with its page range, followed by the question. -/
def buildPrompt (question : String) (ranked : List SimilarRow) : String :=
  String.intercalate "\n"
    (ranked.enum.map fun p =>
      "[" ++ toString (p.1 + 1) ++ "] (pages " ++ toString p.2.page_start ++ "-" ++
        toString p.2.page_end ++ ") " ++ p.2.content) ++
    "\n\nQuestion: " ++ question

/-- Modelled from the spec: the Answer Synthesizer.  With an empty ranked
list the external model is not invoked and the fixed insufficient-information
answer with zero citations is returned; otherwise the model completes the
grounded prompt and the citations are parsed out of its answer. -/
def synthesize (model : String → String) (question : String)
    (ranked : List SimilarRow) : AskResult :=
  if ranked = [] then ⟨insufficient_answer, [], 0⟩
  else
    let ans := model (buildPrompt question ranked)
    ⟨ans, extractCitations ans ranked, ranked.length⟩

/-- Modelled from the spec: the ask endpoint runs the Retriever and hands the
ranked chunks to the Answer Synthesizer. -/
def ask (model : String → String) (dist : Dist) (db : List ChunkRow)
    (question : String) (qvec : List ℚ) (kb : Nat) (th : ℚ) (cnt : Nat) : AskResult :=
  synthesize model question (retrieve dist db qvec kb th cnt)

/-- Sample external model used on concrete inputs. -/
def model0 : String → String := fun _ => "See [1] and [3]."

/-- Sample retrieved rows for the citation scenario. -/
def s1r : SimilarRow := ⟨1, 10, 0, "chunk one", 2, 2, 1⟩

def s2r : SimilarRow := ⟨2, 10, 1, "chunk two", 3, 3, 0⟩

/-- Document lifecycle status as implemented: the documents table declares
status VARCHAR(50) DEFAULT 'processing' with the comment
"processing, ready, failed" (schema.sql line 23), and the frontend document
type is the union 'processing' | 'ready' | 'failed'
(my-app/src/app/knowledge-base/page.tsx line 22). -/
inductive DocStatus
  | processing
  | ready
  | failed
deriving Repr, DecidableEq, Fintype

/-- The string stored in the status column for each status. -/
def docStatusString : DocStatus → String
  | DocStatus.processing => "processing"
  | DocStatus.ready => "ready"
  | DocStatus.failed => "failed"

/-- Status of a freshly created document row (schema.sql line 23 DEFAULT). -/
def defaultDocStatus : DocStatus := DocStatus.processing

/-- Modelled from the spec and the repository guides: the status transitions
performed by backend/services/document_processor.py, which is not in the
source tree.  A document is created with status processing, set to ready
when processing succeeds and to failed when it fails
(CHUNKING_VERIFICATION.md expected behavior; PHASE2_SETUP.md step 6). -/
def docStep : DocStatus → DocStatus → Bool
  | DocStatus.processing, DocStatus.ready => true
  | DocStatus.processing, DocStatus.failed => true
  | _, _ => false

/-- Position of a status along the implemented chain, used to state that
transitions never move backwards. -/
def statusRank : DocStatus → Nat
  | DocStatus.processing => 0
  | DocStatus.ready => 1
  | DocStatus.failed => 1

/-- The states of the chain claimed by the design document (its section 4.7);
the roadmap lists this chain as an unimplemented later phase
(DEEPTUTOR_ROADMAP.md, Phase 4 "Update documents.status enum"). -/
def claimedChainStates : List String :=
  ["uploaded", "extracting", "chunking", "embedding", "ready", "failed"]

/-- The status strings the implementation uses (schema.sql line 23). -/
def implementedStatusStrings : List String := ["processing", "ready", "failed"]

/-- A row of the documents table (schema.sql lines 16-30; fields not needed
by any claim are omitted). -/
structure DocRow where
  id : Nat
  knowledge_base_id : Nat
  filename : String
  status : DocStatus
  chunks_count : Nat
deriving Repr, DecidableEq

/-- The three tables of schema.sql: knowledge_bases (keyed by id),
documents and document_chunks. -/
structure Db where
  kbs : List Nat
  documents : List DocRow
  chunks : List ChunkRow
deriving Repr, DecidableEq

/-- DELETE FROM documents WHERE id = d.  The foreign key
document_chunks.document_id REFERENCES documents(id) ON DELETE CASCADE
(schema.sql line 35) removes every chunk of the deleted document. -/
def deleteDocument (db : Db) (d : Nat) : Db :=
  ⟨db.kbs,
   db.documents.filter fun r => r.id ≠ d,
   db.chunks.filter fun c => c.document_id ≠ d⟩

/-- DELETE FROM knowledge_bases WHERE id = k.  The foreign keys
documents.knowledge_base_id (schema.sql line 17) and
document_chunks.knowledge_base_id (schema.sql line 36) cascade directly,
and document_chunks.document_id (schema.sql line 35) cascades through each
deleted document. -/
def deleteKnowledgeBase (db : Db) (k : Nat) : Db :=
  ⟨db.kbs.filter fun i => i ≠ k,
   db.documents.filter fun r => r.knowledge_base_id ≠ k,
   db.chunks.filter fun c =>
     c.knowledge_base_id ≠ k ∧
     ∀ r ∈ db.documents, r.knowledge_base_id = k → r.id ≠ c.document_id⟩

/-- Referential integrity of the store: every chunk references an existing
document and an existing knowledge base, and every document references an
existing knowledge base. -/
def refIntact (db : Db) : Prop :=
  (∀ c ∈ db.chunks, ∃ r ∈ db.documents, r.id = c.document_id) ∧
  (∀ c ∈ db.chunks, c.knowledge_base_id ∈ db.kbs) ∧
  (∀ r ∈ db.documents, r.knowledge_base_id ∈ db.kbs)

/-- Sample document rows matching the sample chunk table. -/
def d10 : DocRow := ⟨10, 7, "a.pdf", DocStatus.ready, 2⟩

def d11 : DocRow := ⟨11, 7, "b.pdf", DocStatus.ready, 1⟩

def d12 : DocRow := ⟨12, 8, "c.pdf", DocStatus.ready, 1⟩

/-- Sample database. -/
def ddb0 : Db := ⟨[7, 8], [d10, d11, d12], db0⟩

/-- Dimensionality of the embedding column: vector(1536)
(schema_pgvector.sql lines 8-9). -/
def EMBEDDING_DIM : Nat := 1536

/-- UPDATE of the embedding column of one chunk; the column type
vector(1536) (schema_pgvector.sql line 9) rejects a vector of any other
length at the store boundary. -/
def update_chunk_embedding (db : List ChunkRow) (cid : Nat) (v : List ℚ) :
    Except String (List ChunkRow) :=
  if v.length = EMBEDDING_DIM then
    Except.ok (db.map fun r => if r.id = cid then { r with embedding := some v } else r)
  else Except.error "expected 1536 dimensions"

/-- INSERT of a freshly chunked row: the embedding column is NULL until the
Embedder attaches a vector (schema.sql lines 33-41 has no embedding column;
it is added nullable by schema_pgvector.sql lines 8-9). -/
def insert_chunk (db : List ChunkRow) (r : ChunkRow) : List ChunkRow :=
  { r with embedding := none } :: db

/-- Call boundary of find_similar_chunks: the declared parameter type
query_embedding vector(1536) (schema_pgvector.sql line 23) rejects query
vectors of any other length. -/
def call_find_similar_chunks (dist : Dist) (db : List ChunkRow) (q : List ℚ)
    (kb : Nat) (th : ℚ) (cnt : Nat) : Except String (List SimilarRow) :=
  if q.length = EMBEDDING_DIM then
    Except.ok (find_similar_chunks dist db q kb th cnt)
  else Except.error "expected 1536 dimensions"

/-- Every stored embedding is absent or has exactly 1536 dimensions. -/
def dimInvariant (db : List ChunkRow) : Prop :=
  ∀ r ∈ db, ∀ e, r.embedding = some e → e.length = EMBEDDING_DIM

/-- A chunk as produced by the Chunker, before any embedding exists:
zero-based index, text content and the inclusive page range it spans
(the metadata fields of PHASE1_COMPLETE.md). -/
structure ChunkOut where
  chunk_index : Nat
  content : String
  page_start : Nat
  page_end : Nat
deriving Repr, DecidableEq

/-- Modelled from the spec: the concatenation step of chunk_pages
(backend/services/document_processor.py, not in the source tree): the page
texts are concatenated in order and every character remembers the
1-indexed page it came from. -/
def tagPages : Nat → List String → List (Char × Nat)
  | _, [] => []
  | p, t :: rest => (t.toList.map fun c => (c, p)) ++ tagPages (p + 1) rest

/-- Modelled from the spec: the cutting loop of chunk_pages.  The cut
function chooses how many characters the next chunk takes (a cut point at a
sentence or paragraph boundary near the target size when available,
otherwise a hard cut); the loop clamps the choice into 1..remaining so that
it always makes progress.  Each chunk records the page of its first and of
its last character and the running zero-based chunk index. -/
def chunkLoop (cut : List (Char × Nat) → Nat) (l : List (Char × Nat)) (i : Nat) :
    List ChunkOut :=
  match l with
  | [] => []
  | c :: cs =>
      ⟨i, String.mk (((c :: cs).take (min (max (cut (c :: cs)) 1) (c :: cs).length)).map
          Prod.fst),
        c.2,
        ((((c :: cs).take (min (max (cut (c :: cs)) 1) (c :: cs).length)).getLast?).getD c).2⟩ ::
        chunkLoop cut ((c :: cs).drop (min (max (cut (c :: cs)) 1) (c :: cs).length)) (i + 1)
termination_by l.length
decreasing_by
  simp only [List.length_drop, List.length_cons]
  omega

/-- Modelled from the spec: chunk_pages of
backend/services/document_processor.py (not in the source tree): tag the
pages with their 1-indexed numbers, then cut the tagged text into chunks
indexed from 0. -/
def chunk_pages (cut : List (Char × Nat) → Nat) (pages : List String) : List ChunkOut :=
  chunkLoop cut (tagPages 1 pages) 0

/-- Sample cut policy: a hard cut every 3 characters. -/
def cutFix : List (Char × Nat) → Nat := fun _ => 3

/-! ### Theorems -/

/-- Unfolding membership in the eligible rows of the similarity query. -/
theorem eligible_mem {dist : Dist} {db : List ChunkRow} {q : List ℚ} {kb : Nat} {th : ℚ}
    {p : ChunkRow × List ℚ} (hp : p ∈ eligible dist db q kb th) :
    p.1 ∈ db ∧ p.1.embedding = some p.2 ∧ p.1.knowledge_base_id = kb ∧
      th < 1 - dist p.2 q := by
  rcases List.mem_filterMap.mp hp with ⟨r, hr, heq⟩
  cases hemb : r.embedding with
  | none => rw [hemb] at heq; exact absurd heq (by simp)
  | some e =>
      rw [hemb] at heq
      dsimp only at heq
      by_cases hc : r.knowledge_base_id = kb ∧ th < 1 - dist e q
      · rw [if_pos hc] at heq
        cases heq
        exact ⟨hr, hemb, hc.1, hc.2⟩
      · rw [if_neg hc] at heq
        exact absurd heq (by simp)

/-- C1: every row returned by find_similar_chunks is a chunk of the requested
knowledge base with a non-null embedding, its reported similarity equals
1 minus the cosine distance between that embedding and the query vector,
every reported similarity is strictly greater than the threshold, rows are
ordered by descending similarity, and at most match_count rows are
returned. -/
theorem C1_find_similar_chunks_correct (dist : Dist) (db : List ChunkRow)
    (q : List ℚ) (kb : Nat) (th : ℚ) (cnt : Nat) :
    (∀ row ∈ find_similar_chunks dist db q kb th cnt,
        ∃ c, c ∈ db ∧ ∃ e, c.embedding = some e ∧ c.knowledge_base_id = kb ∧
          row.id = c.id ∧ row.document_id = c.document_id ∧
          row.similarity = 1 - dist e q ∧ th < row.similarity) ∧
    List.Sorted (fun a b : SimilarRow => b.similarity ≤ a.similarity)
      (find_similar_chunks dist db q kb th cnt) ∧
    (find_similar_chunks dist db q kb th cnt).length ≤ cnt := by
  refine ⟨?_, ?_, ?_⟩
  · intro row hrow
    have h1 := List.take_subset cnt _ hrow
    rcases List.mem_map.mp h1 with ⟨p, hp, hrw⟩
    have hp2 : p ∈ eligible dist db q kb th :=
      ((List.perm_insertionSort _ _).mem_iff).mp hp
    rcases eligible_mem hp2 with ⟨hdb, hemb, hkb, hth⟩
    refine ⟨p.1, hdb, p.2, hemb, hkb, ?_, ?_, ?_, ?_⟩
    · rw [← hrw]; rfl
    · rw [← hrw]; rfl
    · rw [← hrw]; rfl
    · rw [← hrw]; exact hth
  · have hs : List.Sorted
        (fun a b : ChunkRow × List ℚ => dist a.2 q ≤ dist b.2 q)
        (List.insertionSort
          (fun a b : ChunkRow × List ℚ => dist a.2 q ≤ dist b.2 q)
          (eligible dist db q kb th)) := by
      haveI : IsTotal (ChunkRow × List ℚ)
          (fun a b : ChunkRow × List ℚ => dist a.2 q ≤ dist b.2 q) :=
        ⟨fun a b => le_total _ _⟩
      haveI : IsTrans (ChunkRow × List ℚ)
          (fun a b : ChunkRow × List ℚ => dist a.2 q ≤ dist b.2 q) :=
        ⟨fun a b c hab hbc => le_trans hab hbc⟩
      exact List.sorted_insertionSort _ _
    have hm : List.Sorted (fun a b : SimilarRow => b.similarity ≤ a.similarity)
        ((List.insertionSort
          (fun a b : ChunkRow × List ℚ => dist a.2 q ≤ dist b.2 q)
          (eligible dist db q kb th)).map (toSimilar dist q)) := by
      refine List.Pairwise.map _ (fun a b hab => ?_) hs
      show (toSimilar dist q b).similarity ≤ (toSimilar dist q a).similarity
      exact sub_le_sub_left hab 1
    exact List.Pairwise.sublist (List.take_sublist cnt _) hm
  · exact List.length_take_le cnt _

/-- Witness for C1: evaluated on the sample corpus, the search in knowledge
base 7 with threshold 0 and limit 5 returns exactly the chunk whose stored
embedding matches the query, with similarity 1, and the bound of C1 holds. -/
theorem C1_witness :
    find_similar_chunks dist0 db0 q0 7 0 5 =
      [⟨1, 10, 0, "alpha", 1, 1, 1⟩] ∧
    (find_similar_chunks dist0 db0 q0 7 0 5).length ≤ 5 := by
  constructor
  · norm_num [find_similar_chunks, eligible, toSimilar, dist0, db0, c1r, c2r, c3r, c4r, q0,
      List.filterMap, List.insertionSort, List.orderedInsert]
  · exact (C1_find_similar_chunks_correct dist0 db0 q0 7 0 5).2.2

/-- Ordered insertion commutes with mapping when the two orders agree through
the map. -/
theorem orderedInsert_map {α β : Type} (r : α → α → Prop) (s : β → β → Prop)
    [DecidableRel r] [DecidableRel s] (f : α → β)
    (hrs : ∀ a b, s (f a) (f b) ↔ r a b) (a : α) :
    ∀ l : List α, List.orderedInsert s (f a) (l.map f) = (List.orderedInsert r a l).map f
  | [] => rfl
  | b :: t => by
      simp only [List.map_cons, List.orderedInsert]
      by_cases hr : r a b
      · rw [if_pos ((hrs a b).mpr hr), if_pos hr, List.map_cons, List.map_cons]
      · rw [if_neg (fun hs => hr ((hrs a b).mp hs)), if_neg hr, List.map_cons,
          orderedInsert_map r s f hrs a t]

/-- Insertion sort commutes with mapping when the two orders agree through
the map. -/
theorem insertionSort_map {α β : Type} (r : α → α → Prop) (s : β → β → Prop)
    [DecidableRel r] [DecidableRel s] (f : α → β)
    (hrs : ∀ a b, s (f a) (f b) ↔ r a b) :
    ∀ l : List α, List.insertionSort s (l.map f) = (List.insertionSort r l).map f
  | [] => rfl
  | b :: t => by
      simp only [List.map_cons, List.insertionSort]
      rw [insertionSort_map r s f hrs t, orderedInsert_map r s f hrs b]

/-- The candidate list of the fallback is the image under toSimilar of the
eligible rows of the native query. -/
theorem fallback_candidates_eq (dist : Dist) (db : List ChunkRow) (q : List ℚ)
    (kb : Nat) (th : ℚ) :
    (db.filterMap fun r =>
      match r.embedding with
      | none => none
      | some e =>
          if r.knowledge_base_id = kb ∧ th < 1 - dist e q
          then some (toSimilar dist q (r, e)) else none)
      = (eligible dist db q kb th).map (toSimilar dist q) := by
  rw [eligible, List.map_filterMap]
  congr 1
  funext r
  cases r.embedding with
  | none => rfl
  | some e =>
      dsimp only
      by_cases hc : r.knowledge_base_id = kb ∧ th < 1 - dist e q
      · rw [if_pos hc, if_pos hc]; rfl
      · rw [if_neg hc, if_neg hc]; rfl

/-- C3: for every knowledge base, query vector, threshold and limit the
application-code fallback search returns exactly the same ranked list as the
native storage-layer function find_similar_chunks (same rows, same order,
same threshold semantics), and on a failed native path the Retriever
dispatches to the fallback with the same parameters, so the combined result
again equals the native result. -/
theorem C3_fallback_matches_native (dist : Dist) (db : List ChunkRow) (q : List ℚ)
    (kb : Nat) (th : ℚ) (cnt : Nat) :
    fallback_search dist db q kb th cnt = find_similar_chunks dist db q kb th cnt ∧
    search_with_fallback dist db q kb th cnt none =
      find_similar_chunks dist db q kb th cnt := by
  have key : fallback_search dist db q kb th cnt = find_similar_chunks dist db q kb th cnt := by
    rw [fallback_search, find_similar_chunks, fallback_candidates_eq]
    rw [insertionSort_map
      (fun a b : ChunkRow × List ℚ => dist a.2 q ≤ dist b.2 q)
      (fun a b : SimilarRow => b.similarity ≤ a.similarity)
      (toSimilar dist q)
      (fun a b => by
        show 1 - dist b.2 q ≤ 1 - dist a.2 q ↔ dist a.2 q ≤ dist b.2 q
        exact sub_le_sub_iff_left 1)]
  exact ⟨key, key⟩

/-- Witness for C3: on the sample corpus the fallback search and the native
search return the same single row, and the fallback is what the dispatcher
returns when the native path fails. -/
theorem C3_witness :
    fallback_search dist0 db0 q0 7 0 5 = find_similar_chunks dist0 db0 q0 7 0 5 ∧
    search_with_fallback dist0 db0 q0 7 0 5 none = find_similar_chunks dist0 db0 q0 7 0 5 :=
  C3_fallback_matches_native dist0 db0 q0 7 0 5

/-- C2: if no chunk clears the requested threshold, the Retriever retries the
similarity search exactly once with the threshold halved; if the relaxed
search is also empty it returns the explicit empty list as a normal result
(the function is total, so no error is raised), and when the first search is
non-empty no retry happens. -/
theorem C2_retrieve_threshold_retry (dist : Dist) (db : List ChunkRow) (q : List ℚ)
    (kb : Nat) (th : ℚ) (cnt : Nat) :
    (find_similar_chunks dist db q kb th cnt = [] →
      retrieve dist db q kb th cnt = find_similar_chunks dist db q kb (th / 2) cnt) ∧
    (find_similar_chunks dist db q kb th cnt = [] →
      find_similar_chunks dist db q kb (th / 2) cnt = [] →
      retrieve dist db q kb th cnt = []) ∧
    (find_similar_chunks dist db q kb th cnt ≠ [] →
      retrieve dist db q kb th cnt = find_similar_chunks dist db q kb th cnt) := by
  refine ⟨?_, ?_, ?_⟩
  · intro h0
    simp [retrieve, h0]
  · intro h0 h1
    simp [retrieve, h0, h1]
  · intro h0
    simp only [retrieve]
    rw [if_neg h0]

/-- Witness for C2: on the empty corpus the strict search is empty, the
halved-threshold search is empty, and retrieve returns the explicit empty
list. -/
theorem C2_witness : retrieve dist0 [] q0 7 (7/10) 5 = [] :=
  (C2_retrieve_threshold_retry dist0 [] q0 7 (7/10) 5).2.1 rfl rfl

/-- C4: with an empty ranked chunk list the Synthesizer returns the fixed
insufficient-information answer with zero citations, and the result does not
depend on the model function, which formalises that the language model is
not called; consequently an ask whose retrieval is empty returns the
insufficient-information answer with chunks_retrieved = 0, as a value rather
than an exception. -/
theorem C4_empty_retrieval_grounded_refusal (model1 model2 : String → String)
    (question : String) (dist : Dist) (db : List ChunkRow) (qvec : List ℚ)
    (kb : Nat) (th : ℚ) (cnt : Nat) :
    synthesize model1 question [] = ⟨insufficient_answer, [], 0⟩ ∧
    synthesize model1 question [] = synthesize model2 question [] ∧
    (retrieve dist db qvec kb th cnt = [] →
      ask model1 dist db question qvec kb th cnt = ⟨insufficient_answer, [], 0⟩) := by
  refine ⟨rfl, rfl, ?_⟩
  intro h
  rw [ask, h]
  rfl

/-- Witness for C4: on the empty corpus, ask returns the fixed refusal with
zero citations and zero chunks retrieved. -/
theorem C4_witness :
    ask model0 dist0 [] "What is a virtual classroom?" q0 7 (7/10) 5 =
      ⟨insufficient_answer, [], 0⟩ :=
  (C4_empty_retrieval_grounded_refusal model0 model0 "What is a virtual classroom?"
    dist0 [] q0 7 (7/10) 5).2.2 rfl

/-- The citation ids of extractCitations are the distinct in-range markers. -/
theorem citations_map_id (ranked : List SimilarRow) :
    ∀ l : List Nat,
      (l.filterMap fun k =>
        if 1 ≤ k then
          match ranked[k - 1]? with
          | some ch =>
              some (⟨k, ch.document_id, ch.page_start, ch.page_end, ch.content,
                ch.similarity⟩ : Citation)
          | none => none
        else none).map Citation.id
      = l.filter fun k => decide (1 ≤ k) && (ranked[k - 1]?).isSome
  | [] => rfl
  | k :: t => by
      simp only [List.filterMap_cons, List.filter_cons]
      by_cases h1 : 1 ≤ k
      · rw [if_pos h1]
        cases hg : ranked[k - 1]? with
        | none => simp [h1, hg, citations_map_id ranked t]
        | some ch => simp [h1, hg, citations_map_id ranked t]
      · rw [if_neg h1]
        simp [h1, citations_map_id ranked t]

/-- C5: the Synthesizer emits exactly one citation per distinct bracketed
integer marker k of the answer with 1 <= k <= n (n the number of retrieved
chunks); out-of-range markers are dropped without error; hence the citation
count never exceeds n, citation ids are pairwise distinct, and every field of
a citation traces back to the k-th retrieved chunk of the 1-based prompt
numbering. -/
theorem C5_citation_extraction (answer : String) (ranked : List SimilarRow) :
    (extractCitations answer ranked).length ≤ ranked.length ∧
    ((extractCitations answer ranked).map Citation.id).Nodup ∧
    (∀ c ∈ extractCitations answer ranked,
        c.id ∈ markersOf answer ∧ 1 ≤ c.id ∧
        ∃ h : c.id - 1 < ranked.length,
          c.document_id = (ranked.get ⟨c.id - 1, h⟩).document_id ∧
          c.page_start = (ranked.get ⟨c.id - 1, h⟩).page_start ∧
          c.page_end = (ranked.get ⟨c.id - 1, h⟩).page_end ∧
          c.snippet = (ranked.get ⟨c.id - 1, h⟩).content ∧
          c.similarity = (ranked.get ⟨c.id - 1, h⟩).similarity) ∧
    (∀ k, k ∈ markersOf answer → 1 ≤ k → k ≤ ranked.length →
        ∃ c ∈ extractCitations answer ranked, c.id = k) := by
  have hids : (extractCitations answer ranked).map Citation.id
      = (markersOf answer).dedup.filter
          fun k => decide (1 ≤ k) && (ranked[k - 1]?).isSome :=
    citations_map_id ranked (markersOf answer).dedup
  have hnodup : ((extractCitations answer ranked).map Citation.id).Nodup := by
    rw [hids]
    exact (List.nodup_dedup _).filter _
  refine ⟨?_, hnodup, ?_, ?_⟩
  · have hlen : (extractCitations answer ranked).length
        = ((extractCitations answer ranked).map Citation.id).length :=
      (List.length_map _ _).symm
    rw [hlen]
    have hsub : ((extractCitations answer ranked).map Citation.id).toFinset
        ⊆ Finset.Icc 1 ranked.length := by
      intro k hk
      rw [List.mem_toFinset, hids, List.mem_filter] at hk
      rcases hk with ⟨-, hk⟩
      rw [Bool.and_eq_true, decide_eq_true_eq] at hk
      rcases hk with ⟨h1, h2⟩
      rw [Finset.mem_Icc]
      refine ⟨h1, ?_⟩
      rcases Option.isSome_iff_exists.mp h2 with ⟨ch, hch⟩
      have := (List.getElem?_eq_some.mp hch).1
      omega
    have hcard := Finset.card_le_card hsub
    rw [List.toFinset_card_of_nodup hnodup] at hcard
    simpa using hcard
  · intro c hc
    rcases List.mem_filterMap.mp hc with ⟨k, hk, heq⟩
    by_cases h1 : 1 ≤ k
    · rw [if_pos h1] at heq
      cases hg : ranked[k - 1]? with
      | none => rw [hg] at heq; exact absurd heq (by simp)
      | some ch =>
          rw [hg] at heq
          cases heq
          have hlt : k - 1 < ranked.length := by
            have := (List.getElem?_eq_some.mp hg).1
            omega
          have hget : ranked.get ⟨k - 1, hlt⟩ = ch := by
            have := (List.getElem?_eq_some.mp hg).2
            rw [List.get_eq_getElem]
            exact this
          exact ⟨List.mem_dedup.mp hk, h1, hlt, by rw [hget], by rw [hget],
            by rw [hget], by rw [hget], by rw [hget]⟩
    · rw [if_neg h1] at heq
      exact absurd heq (by simp)
  · intro k hk h1 hn
    have hlt : k - 1 < ranked.length := by omega
    have hg : ranked[k - 1]? = some (ranked.get ⟨k - 1, hlt⟩) := by
      rw [List.getElem?_eq_getElem hlt, List.get_eq_getElem]
    refine ⟨⟨k, (ranked.get ⟨k - 1, hlt⟩).document_id,
      (ranked.get ⟨k - 1, hlt⟩).page_start, (ranked.get ⟨k - 1, hlt⟩).page_end,
      (ranked.get ⟨k - 1, hlt⟩).content, (ranked.get ⟨k - 1, hlt⟩).similarity⟩,
      ?_, rfl⟩
    refine List.mem_filterMap.mpr ⟨k, List.mem_dedup.mpr hk, ?_⟩
    rw [if_pos h1, hg]

/-- Witness for C5: the model answer mentions markers 1 and 3 while only two
chunks were retrieved; the citation for marker 1 is emitted, the citation
for marker 3 is dropped, and by C5 the citation count is at most 2. -/
theorem C5_witness :
    extractCitations "See [1] and [3]." [s1r, s2r] =
      [⟨1, 10, 2, 2, "chunk one", 1⟩] ∧
    (extractCitations "See [1] and [3]." [s1r, s2r]).length ≤ 2 := by
  constructor
  · decide
  · exact (C5_citation_extraction "See [1] and [3]." [s1r, s2r]).1

/-- C6 counterexample: the claim fails on the code.  A document row is
created with status "processing" (schema.sql line 23 DEFAULT), which is an
implemented status, yet the claimed chain
uploaded → extracting → chunking → embedding → ready (with failed) does not
contain it, so document statuses do not move along that chain. -/
theorem C6_counterexample :
    docStatusString defaultDocStatus = "processing" ∧
    "processing" ∈ implementedStatusStrings ∧
    "processing" ∉ claimedChainStates := by
  refine ⟨rfl, ?_, ?_⟩
  · decide
  · decide

/-- C6 amended: a document status moves only along the one-directional chain
processing → ready, with the terminal failed state reachable from the single
non-terminal state processing and no other transitions; in particular the
rank of a status strictly increases along every transition, so a status
never returns to an earlier state, and ready and failed are terminal. -/
theorem C6_amended_status_machine :
    (∀ s t : DocStatus, docStep s t = true ↔
        (s = DocStatus.processing ∧ (t = DocStatus.ready ∨ t = DocStatus.failed))) ∧
    (∀ s t : DocStatus, docStep s t = true → statusRank s < statusRank t) ∧
    (∀ t : DocStatus,
        docStep DocStatus.ready t = false ∧ docStep DocStatus.failed t = false) := by
  refine ⟨?_, ?_, ?_⟩
  · decide
  · decide
  · decide

/-- Witness for the amended C6: the successful transition strictly advances
the status rank. -/
theorem C6_witness :
    docStep DocStatus.processing DocStatus.ready = true ∧
    statusRank DocStatus.processing < statusRank DocStatus.ready :=
  ⟨by decide,
   C6_amended_status_machine.2.1 DocStatus.processing DocStatus.ready (by decide)⟩

/-- Chunk membership after a document delete. -/
theorem mem_deleteDocument_chunks {db : Db} {d : Nat} {c : ChunkRow} :
    c ∈ (deleteDocument db d).chunks ↔ c ∈ db.chunks ∧ c.document_id ≠ d := by
  simp [deleteDocument]

/-- Document membership after a document delete. -/
theorem mem_deleteDocument_documents {db : Db} {d : Nat} {r : DocRow} :
    r ∈ (deleteDocument db d).documents ↔ r ∈ db.documents ∧ r.id ≠ d := by
  simp [deleteDocument]

/-- Chunk membership after a knowledge-base delete. -/
theorem mem_deleteKB_chunks {db : Db} {k : Nat} {c : ChunkRow} :
    c ∈ (deleteKnowledgeBase db k).chunks ↔
      c ∈ db.chunks ∧ c.knowledge_base_id ≠ k ∧
        ∀ r ∈ db.documents, r.knowledge_base_id = k → r.id ≠ c.document_id := by
  simp [deleteKnowledgeBase]

/-- Document membership after a knowledge-base delete. -/
theorem mem_deleteKB_documents {db : Db} {k : Nat} {r : DocRow} :
    r ∈ (deleteKnowledgeBase db k).documents ↔
      r ∈ db.documents ∧ r.knowledge_base_id ≠ k := by
  simp [deleteKnowledgeBase]

/-- Knowledge-base membership after a knowledge-base delete. -/
theorem mem_deleteKB_kbs {db : Db} {k i : Nat} :
    i ∈ (deleteKnowledgeBase db k).kbs ↔ i ∈ db.kbs ∧ i ≠ k := by
  simp [deleteKnowledgeBase]

/-- C9: deleting a document deletes all of its chunks, deleting a knowledge
base deletes all of its documents and their chunks (ON DELETE CASCADE), and
both deletes preserve referential integrity, so afterwards no stored chunk
references a missing document or knowledge base. -/
theorem C9_cascade_delete_no_orphans (db : Db) (d k : Nat) (h : refIntact db) :
    (∀ c ∈ (deleteDocument db d).chunks, c.document_id ≠ d) ∧
    refIntact (deleteDocument db d) ∧
    (∀ r ∈ (deleteKnowledgeBase db k).documents, r.knowledge_base_id ≠ k) ∧
    (∀ c ∈ (deleteKnowledgeBase db k).chunks, c.knowledge_base_id ≠ k) ∧
    (∀ c ∈ (deleteKnowledgeBase db k).chunks, ∀ r ∈ db.documents,
        r.id = c.document_id → r.knowledge_base_id ≠ k) ∧
    refIntact (deleteKnowledgeBase db k) := by
  obtain ⟨h1, h2, h3⟩ := h
  refine ⟨?_, ⟨?_, ?_, ?_⟩, ?_, ?_, ?_, ⟨?_, ?_, ?_⟩⟩
  · intro c hc
    exact (mem_deleteDocument_chunks.mp hc).2
  · intro c hc
    obtain ⟨hcm, hcd⟩ := mem_deleteDocument_chunks.mp hc
    obtain ⟨r, hr, hrid⟩ := h1 c hcm
    exact ⟨r, mem_deleteDocument_documents.mpr ⟨hr, by rw [hrid]; exact hcd⟩, hrid⟩
  · intro c hc
    exact h2 c (mem_deleteDocument_chunks.mp hc).1
  · intro r hr
    exact h3 r (mem_deleteDocument_documents.mp hr).1
  · intro r hr
    exact (mem_deleteKB_documents.mp hr).2
  · intro c hc
    exact (mem_deleteKB_chunks.mp hc).2.1
  · intro c hc r hr hid
    obtain ⟨-, -, hall⟩ := mem_deleteKB_chunks.mp hc
    intro hk
    exact hall r hr hk hid
  · intro c hc
    obtain ⟨hcm, hck, hall⟩ := mem_deleteKB_chunks.mp hc
    obtain ⟨r, hr, hrid⟩ := h1 c hcm
    have hrk : r.knowledge_base_id ≠ k := fun hk => hall r hr hk hrid
    exact ⟨r, mem_deleteKB_documents.mpr ⟨hr, hrk⟩, hrid⟩
  · intro c hc
    obtain ⟨hcm, hck, -⟩ := mem_deleteKB_chunks.mp hc
    exact mem_deleteKB_kbs.mpr ⟨h2 c hcm, hck⟩
  · intro r hr
    obtain ⟨hrm, hrk⟩ := mem_deleteKB_documents.mp hr
    have : r.knowledge_base_id ∈ db.kbs := h3 r hrm
    exact mem_deleteKB_kbs.mpr ⟨this, hrk⟩

/-- Witness for C9: on the sample database (which satisfies referential
integrity) deleting document 10 leaves exactly the two chunks of the other
documents, and the surviving chunk of document 11 no longer references
document 10. -/
theorem C9_witness :
    (deleteDocument ddb0 10).chunks = [c3r, c4r] ∧ c3r.document_id ≠ 10 := by
  refine ⟨by decide, ?_⟩
  exact (C9_cascade_delete_no_orphans ddb0 10 7 ⟨by decide, by decide, by decide⟩).1
    c3r (by decide)

/-- C10: updates of the embedding column preserve the invariant that every
stored embedding is absent or of exactly 1536 dimensions; an update with a
vector of any other length is rejected with an error, a fresh chunk insert
stores a NULL embedding, and the similarity search rejects query vectors of
any other length instead of ranking with them. -/
theorem C10_embedding_dimension_enforced (db db2 : List ChunkRow) (cid : Nat)
    (v q : List ℚ) (r : ChunkRow) (dist : Dist) (kb : Nat) (th : ℚ) (cnt : Nat)
    (hdb : dimInvariant db) :
    (update_chunk_embedding db cid v = Except.ok db2 → dimInvariant db2) ∧
    (v.length ≠ EMBEDDING_DIM →
      update_chunk_embedding db cid v = Except.error "expected 1536 dimensions") ∧
    dimInvariant (insert_chunk db r) ∧
    (q.length ≠ EMBEDDING_DIM →
      call_find_similar_chunks dist db q kb th cnt =
        Except.error "expected 1536 dimensions") := by
  refine ⟨?_, ?_, ?_, ?_⟩
  · intro hok
    rw [update_chunk_embedding] at hok
    by_cases hv : v.length = EMBEDDING_DIM
    · rw [if_pos hv] at hok
      injection hok with hmap
      intro r2 hr2 e he
      rw [← hmap] at hr2
      rcases List.mem_map.mp hr2 with ⟨r0, hr0, heq⟩
      by_cases hid : r0.id = cid
      · rw [if_pos hid] at heq
        rw [← heq] at he
        simp only at he
        cases he
        exact hv
      · rw [if_neg hid] at heq
        rw [← heq] at he
        exact hdb r0 hr0 e he
    · rw [if_neg hv] at hok
      exact absurd hok (by simp)
  · intro hv
    rw [update_chunk_embedding, if_neg hv]
  · intro r2 hr2 e he
    cases hr2 with
    | head => exact absurd he (by simp)
    | tail _ hm => exact hdb r2 hm e he
  · intro hq
    rw [call_find_similar_chunks, if_neg hq]

/-- Witness for C10: attaching a 1-dimensional vector is rejected, and the
sample chunk freshly inserted in the empty store keeps a NULL embedding. -/
theorem C10_witness :
    update_chunk_embedding [] 1 [1] = Except.error "expected 1536 dimensions" ∧
    dimInvariant (insert_chunk [] c1r) := by
  have h := C10_embedding_dimension_enforced [] [] 1 [1] q0 c1r dist0 7 0 5
    (by intro r hr; exact absurd hr (List.not_mem_nil r))
  exact ⟨h.2.1 (by decide), h.2.2.1⟩

/-- Page lists mapped to a constant page number are trivially sorted. -/
theorem pairwise_const_le (p : Nat) : ∀ cs : List Char,
    List.Pairwise (· ≤ ·) (cs.map fun _ => p)
  | [] => List.Pairwise.nil
  | c :: cs => by
      rw [List.map_cons]
      refine List.pairwise_cons.mpr ⟨?_, pairwise_const_le p cs⟩
      intro b hb
      rcases List.mem_map.mp hb with ⟨x, -, hx⟩
      exact le_of_eq hx

/-- The page tags of the concatenated text are non-decreasing, and no tag is
below the starting page number. -/
theorem tagPages_sorted : ∀ (p : Nat) (pages : List String),
    List.Pairwise (· ≤ ·) ((tagPages p pages).map Prod.snd) ∧
    ∀ x ∈ tagPages p pages, p ≤ x.2
  | p, [] => by simp [tagPages]
  | p, t :: rest => by
      obtain ⟨ih1, ih2⟩ := tagPages_sorted (p + 1) rest
      constructor
      · rw [tagPages, List.map_append, List.pairwise_append]
        refine ⟨?_, ih1, ?_⟩
        · rw [List.map_map]
          exact pairwise_const_le p t.toList
        · intro a ha b hb
          rw [List.map_map] at ha
          rcases List.mem_map.mp ha with ⟨x, -, hx⟩
          rcases List.mem_map.mp hb with ⟨y, hy, hyb⟩
          rw [← hx, ← hyb]
          exact le_trans (Nat.le_succ p) (ih2 y hy)
      · intro x hx
        rw [tagPages] at hx
        rcases List.mem_append.mp hx with h | h
        · rcases List.mem_map.mp h with ⟨ch, -, hch⟩
          rw [← hch]
        · exact le_trans (Nat.le_succ p) (ih2 x h)

/-- The cut size chosen by the clamped policy is at least 1. -/
theorem cut_clamp_pos (cut : List (Char × Nat) → Nat) (c : Char × Nat)
    (cs : List (Char × Nat)) :
    1 ≤ min (max (cut (c :: cs)) 1) (c :: cs).length := by
  refine le_min (Nat.le_max_right _ 1) ?_
  simp

/-- The chunk indices produced by the cutting loop count up from the start
index. -/
theorem chunkLoop_map_index (cut : List (Char × Nat) → Nat) :
    ∀ k, ∀ l : List (Char × Nat), l.length ≤ k → ∀ i,
      (chunkLoop cut l i).map ChunkOut.chunk_index =
        List.range' i (chunkLoop cut l i).length := by
  intro k
  induction k with
  | zero =>
      intro l hl i
      have hnil : l = [] := List.eq_nil_of_length_eq_zero (Nat.le_zero.mp hl)
      subst hnil
      simp [chunkLoop]
  | succ k ih =>
      intro l hl i
      cases l with
      | nil => simp [chunkLoop]
      | cons c cs =>
          have hcut := cut_clamp_pos cut c cs
          have hlenrest :
              ((c :: cs).drop (min (max (cut (c :: cs)) 1) (c :: cs).length)).length ≤ k := by
            simp only [List.length_drop, List.length_cons]
            simp only [List.length_cons] at hl
            omega
          rw [chunkLoop]
          simp only [List.map_cons, List.length_cons, List.range'_succ]
          exact congrArg (List.cons i) (ih _ hlenrest (i + 1))

/-- Page bookkeeping of the cutting loop over a page-sorted tagged text:
every chunk draws its page bounds from tags of the text, starts no later
than it ends, and any two chunks in order have non-decreasing page
ranges. -/
theorem chunkLoop_pages (cut : List (Char × Nat) → Nat) :
    ∀ k, ∀ l : List (Char × Nat), l.length ≤ k →
      List.Pairwise (· ≤ ·) (l.map Prod.snd) → ∀ i,
      (∀ ch ∈ chunkLoop cut l i,
        (∃ x ∈ l, ch.page_start = x.2) ∧ (∃ y ∈ l, ch.page_end = y.2) ∧
          ch.page_start ≤ ch.page_end) ∧
      List.Pairwise (fun a b : ChunkOut => a.page_end ≤ b.page_start)
        (chunkLoop cut l i) := by
  intro k
  induction k with
  | zero =>
      intro l hl hs i
      have hnil : l = [] := List.eq_nil_of_length_eq_zero (Nat.le_zero.mp hl)
      subst hnil
      simp [chunkLoop]
  | succ k ih =>
      intro l hl hs i
      cases l with
      | nil => simp [chunkLoop]
      | cons c cs =>
          have hcut := cut_clamp_pos cut c cs
          obtain ⟨m, hm⟩ : ∃ m, min (max (cut (c :: cs)) 1) (c :: cs).length = m + 1 :=
            ⟨min (max (cut (c :: cs)) 1) (c :: cs).length - 1, by omega⟩
          have hpref : (c :: cs).take (min (max (cut (c :: cs)) 1) (c :: cs).length)
              = c :: cs.take m := by
            rw [hm]
            exact List.take_succ_cons
          have hprefne : (c :: cs).take (min (max (cut (c :: cs)) 1) (c :: cs).length)
              ≠ [] := by
            rw [hpref]
            simp
          have hlast_mem :
              ((c :: cs).take (min (max (cut (c :: cs)) 1) (c :: cs).length)).getLast?.getD c
              ∈ (c :: cs).take (min (max (cut (c :: cs)) 1) (c :: cs).length) := by
            rw [List.getLast?_eq_getLast _ hprefne, Option.getD_some]
            exact List.getLast_mem hprefne
          have hcross : ∀ x ∈ (c :: cs).take (min (max (cut (c :: cs)) 1) (c :: cs).length),
              ∀ y ∈ (c :: cs).drop (min (max (cut (c :: cs)) 1) (c :: cs).length),
              x.2 ≤ y.2 := by
            have hp : List.Pairwise (· ≤ ·)
                (((c :: cs).take (min (max (cut (c :: cs)) 1) (c :: cs).length)).map Prod.snd
                  ++ ((c :: cs).drop (min (max (cut (c :: cs)) 1) (c :: cs).length)).map
                    Prod.snd) := by
              rw [← List.map_append, List.take_append_drop]
              exact hs
            have hp2 := (List.pairwise_append.mp hp).2.2
            intro x hx y hy
            exact hp2 x.2 (List.mem_map_of_mem _ hx) y.2 (List.mem_map_of_mem _ hy)
          have hheadle : ∀ x ∈ (c :: cs).take (min (max (cut (c :: cs)) 1) (c :: cs).length),
              c.2 ≤ x.2 := by
            intro x hx
            rw [hpref] at hx
            cases hx with
            | head => exact le_refl _
            | tail _ hx2 =>
                have hxcs : x ∈ cs := List.take_subset m cs hx2
                have hs2 := hs
                rw [List.map_cons] at hs2
                exact (List.pairwise_cons.mp hs2).1 x.2 (List.mem_map_of_mem _ hxcs)
          have hrest_sorted : List.Pairwise (· ≤ ·)
              (((c :: cs).drop (min (max (cut (c :: cs)) 1) (c :: cs).length)).map
                Prod.snd) := by
            rw [List.map_drop]
            exact hs.sublist (List.drop_sublist _ _)
          have hlenrest :
              ((c :: cs).drop (min (max (cut (c :: cs)) 1) (c :: cs).length)).length ≤ k := by
            simp only [List.length_drop, List.length_cons]
            simp only [List.length_cons] at hl
            omega
          obtain ⟨ihA, ihB⟩ := ih _ hlenrest hrest_sorted (i + 1)
          rw [chunkLoop]
          constructor
          · intro ch hch
            cases hch with
            | head =>
                exact ⟨⟨c, List.mem_cons_self c cs, rfl⟩,
                  ⟨_, List.take_subset _ _ hlast_mem, rfl⟩, hheadle _ hlast_mem⟩
            | tail _ hch2 =>
                obtain ⟨⟨x, hx, hxe⟩, ⟨y, hy, hye⟩, hse⟩ := ihA ch hch2
                exact ⟨⟨x, List.drop_subset _ _ hx, hxe⟩,
                  ⟨y, List.drop_subset _ _ hy, hye⟩, hse⟩
          · refine List.pairwise_cons.mpr ⟨?_, ihB⟩
            intro b hb
            obtain ⟨⟨x, hx, hxe⟩, -, -⟩ := ihA b hb
            show (((c :: cs).take
                (min (max (cut (c :: cs)) 1) (c :: cs).length)).getLast?.getD c).2
              ≤ b.page_start
            rw [hxe]
            exact hcross _ hlast_mem x hx

/-- C7: for every cut policy and page list, the chunk indices produced by
the Chunker are contiguous from 0, every chunk satisfies
page_start ≤ page_end, and both page bounds are monotonically
non-decreasing in chunk index. -/
theorem C7_chunk_page_invariants (cut : List (Char × Nat) → Nat) (pages : List String) :
    (chunk_pages cut pages).map ChunkOut.chunk_index =
      List.range (chunk_pages cut pages).length ∧
    (∀ ch ∈ chunk_pages cut pages, ch.page_start ≤ ch.page_end) ∧
    List.Sorted (· ≤ ·) ((chunk_pages cut pages).map ChunkOut.page_start) ∧
    List.Sorted (· ≤ ·) ((chunk_pages cut pages).map ChunkOut.page_end) := by
  have hsorted := (tagPages_sorted 1 pages).1
  obtain ⟨hA, hB⟩ :=
    chunkLoop_pages cut (tagPages 1 pages).length (tagPages 1 pages) le_rfl hsorted 0
  refine ⟨?_, ?_, ?_, ?_⟩
  · rw [chunk_pages, List.range_eq_range']
    exact chunkLoop_map_index cut (tagPages 1 pages).length _ le_rfl 0
  · intro ch hch
    exact (hA ch hch).2.2
  · refine List.pairwise_map.mpr ?_
    exact hB.imp_of_mem fun ha hb hab => le_trans (hA _ ha).2.2 hab
  · refine List.pairwise_map.mpr ?_
    exact hB.imp_of_mem fun ha hb hab => le_trans hab (hA _ hb).2.2

/-- Witness for C7: two pages of two characters each, hard cut every three
characters: chunk 0 spans pages 1-2, chunk 1 stays on page 2, indices are
contiguous from 0 and page bounds are non-decreasing. -/
theorem C7_witness :
    chunk_pages cutFix ["ab", "cd"] =
      [⟨0, "abc", 1, 2⟩, ⟨1, "d", 2, 2⟩] ∧
    (chunk_pages cutFix ["ab", "cd"]).map ChunkOut.chunk_index =
      List.range (chunk_pages cutFix ["ab", "cd"]).length := by
  constructor
  · simp [chunk_pages, chunkLoop, tagPages, cutFix]
  · exact (C7_chunk_page_invariants cutFix ["ab", "cd"]).1

/-- C8: chunking is deterministic — two runs of the Chunker on identical
extracted text with the same cut policy produce identical chunk lists, in
particular byte-identical chunk texts and page ranges. -/
theorem C8_chunking_deterministic (cut : List (Char × Nat) → Nat)
    (pages1 pages2 : List String) (h : pages1 = pages2) :
    chunk_pages cut pages1 = chunk_pages cut pages2 ∧
    (chunk_pages cut pages1).map ChunkOut.content =
      (chunk_pages cut pages2).map ChunkOut.content := by
  rw [h]
  exact ⟨rfl, rfl⟩

/-- Witness for C8: two runs on the same two-page text agree, and the run
evaluates to the expected chunk list. -/
theorem C8_witness :
    chunk_pages cutFix ["ab", "cd"] = chunk_pages cutFix ["ab", "cd"] ∧
    chunk_pages cutFix ["ab", "cd"] = [⟨0, "abc", 1, 2⟩, ⟨1, "d", 2, 2⟩] := by
  refine ⟨(C8_chunking_deterministic cutFix ["ab", "cd"] ["ab", "cd"] rfl).1, ?_⟩
  simp [chunk_pages, chunkLoop, tagPages, cutFix]

end TutorTech

